import Mathlib

/-!
Verification development for the pinyin data model ("src/pinyin/model.py"):
syllable parsing, tokenization with erhua recovery, flattening, space
insertion, character/reading alignment and the numeric-tone-to-diacritic
rewriter.  Python unicode strings are modelled as `List Char`; fallible
constructors and parsers return `Except`/`Option`.
-/

set_option linter.unusedVariables false

/-- Python unicode strings are modelled as lists of characters. -/
abbrev PyStr := List Char

/-- Python `str.replace(a, r)` for a single-character pattern `a`:
replaces every occurrence of `a` by `r`. -/
def replace1 (a : Char) (r : PyStr) (l : PyStr) : PyStr :=
  l.flatMap (fun c => if c = a then r else [c])

/-- Python `str.replace(ab, r)` for a two-character pattern: leftmost,
non-overlapping replacement. -/
def replace2 (a b : Char) (r : PyStr) : PyStr → PyStr
  | [] => []
  | [c] => [c]
  | c :: d :: rest =>
    if c = a ∧ d = b then r ++ replace2 a b r rest
    else c :: replace2 a b r (d :: rest)

/-- `substituteForUUmlaut` from model.py: normalise the ASCII-friendly
encodings `u:`/`U:`/`v`/`V` of the umlaut vowel into `ü`/`Ü`.  The four
`replace` calls happen in the source's order. -/
def substituteForUUmlaut (l : PyStr) : PyStr :=
  replace1 'V' ['Ü'] (replace1 'v' ['ü'] (replace2 'U' ':' ['Ü'] (replace2 'u' ':' ['ü'] l)))

/-- The four non-trivial combining diacritical marks of
`tonecombiningmarks` (macron, acute, caron, grave); the fifth entry of the
source list is the empty string for the neutral tone. -/
def markOfTone1 : Char := '̄'
def markOfTone2 : Char := '́'
def markOfTone3 : Char := '̌'
def markOfTone4 : Char := '̀'
def combiningDiaeresis : Char := '̈'

/-- `tonecombiningmarks` from model.py as a list of strings (the fifth,
neutral-tone entry is blank). -/
def tonecombiningmarks : List PyStr :=
  [[markOfTone1], [markOfTone2], [markOfTone3], [markOfTone4], []]

/-- Python `x or y` on tone numbers / None: both `None` and `0` are falsy. -/
def pyOrTone (x y : Option Nat) : Option Nat :=
  if x = none ∨ x = some 0 then y else x

/-- `ToneInfo` from model.py: a written and a spoken tone.  The fields are
`Option Nat` because Python stores either an int or `None` (an int tone `0`
is falsy, so the constructor's `or`-defaulting can produce `None` fields). -/
structure ToneInfo where
  written : Option Nat
  spoken : Option Nat
deriving DecidableEq, Repr

/-- The `ToneInfo.__init__` defaulting: each side defaults to the other via
Python `or`. -/
def ToneInfo.make (written spoken : Option Nat) : ToneInfo :=
  ⟨pyOrTone written spoken, pyOrTone spoken written⟩

/-- Python `str(...)` of a tone field: an int renders as its digits and
`None` renders as the four characters `None`. -/
def pyStrOfTone : Option Nat → PyStr
  | none => ['N', 'o', 'n', 'e']
  | some n => Nat.toDigits 10 n

/-- Lowercasing table for the non-ASCII characters of the pinyin repertoire
(models Python `unicode.lower` restricted to the characters this program
manipulates). -/
def lowerPairs : List (Char × Char) :=
  [('Ü', 'ü'), ('Ā', 'ā'), ('Á', 'á'), ('Ǎ', 'ǎ'), ('À', 'à'),
   ('Ē', 'ē'), ('É', 'é'), ('Ě', 'ě'), ('È', 'è'),
   ('Ī', 'ī'), ('Í', 'í'), ('Ǐ', 'ǐ'), ('Ì', 'ì'),
   ('Ō', 'ō'), ('Ó', 'ó'), ('Ǒ', 'ǒ'), ('Ò', 'ò'),
   ('Ū', 'ū'), ('Ú', 'ú'), ('Ǔ', 'ǔ'), ('Ù', 'ù'),
   ('Ǖ', 'ǖ'), ('Ǘ', 'ǘ'), ('Ǚ', 'ǚ'), ('Ǜ', 'ǜ')]

/-- Python `unicode.lower` on one character, restricted to ASCII letters
plus the pinyin repertoire. -/
def pyLower (c : Char) : Char :=
  if 65 ≤ c.toNat ∧ c.toNat ≤ 90 then Char.ofNat (c.toNat + 32)
  else ((lowerPairs.find? (fun p => p.1 = c)).map Prod.snd).getD c

/-- Canonical composition pairs (base character, combining mark, composed
character) for the pinyin repertoire: models `unicodedata.normalize('NFC')`
restricted to the characters this program manipulates. -/
def composeTable : List (Char × Char × Char) :=
  [('a', markOfTone1, 'ā'), ('a', markOfTone2, 'á'), ('a', markOfTone3, 'ǎ'), ('a', markOfTone4, 'à'),
   ('e', markOfTone1, 'ē'), ('e', markOfTone2, 'é'), ('e', markOfTone3, 'ě'), ('e', markOfTone4, 'è'),
   ('i', markOfTone1, 'ī'), ('i', markOfTone2, 'í'), ('i', markOfTone3, 'ǐ'), ('i', markOfTone4, 'ì'),
   ('o', markOfTone1, 'ō'), ('o', markOfTone2, 'ó'), ('o', markOfTone3, 'ǒ'), ('o', markOfTone4, 'ò'),
   ('u', markOfTone1, 'ū'), ('u', markOfTone2, 'ú'), ('u', markOfTone3, 'ǔ'), ('u', markOfTone4, 'ù'),
   ('u', combiningDiaeresis, 'ü'), ('U', combiningDiaeresis, 'Ü'),
   ('ü', markOfTone1, 'ǖ'), ('ü', markOfTone2, 'ǘ'), ('ü', markOfTone3, 'ǚ'), ('ü', markOfTone4, 'ǜ'),
   ('A', markOfTone1, 'Ā'), ('A', markOfTone2, 'Á'), ('A', markOfTone3, 'Ǎ'), ('A', markOfTone4, 'À'),
   ('E', markOfTone1, 'Ē'), ('E', markOfTone2, 'É'), ('E', markOfTone3, 'Ě'), ('E', markOfTone4, 'È'),
   ('I', markOfTone1, 'Ī'), ('I', markOfTone2, 'Í'), ('I', markOfTone3, 'Ǐ'), ('I', markOfTone4, 'Ì'),
   ('O', markOfTone1, 'Ō'), ('O', markOfTone2, 'Ó'), ('O', markOfTone3, 'Ǒ'), ('O', markOfTone4, 'Ò'),
   ('U', markOfTone1, 'Ū'), ('U', markOfTone2, 'Ú'), ('U', markOfTone3, 'Ǔ'), ('U', markOfTone4, 'Ù'),
   ('Ü', markOfTone1, 'Ǖ'), ('Ü', markOfTone2, 'Ǘ'), ('Ü', markOfTone3, 'Ǚ'), ('Ü', markOfTone4, 'Ǜ')]

/-- Canonical decomposition of one character: models
`unicodedata.normalize('NFD')` on the pinyin repertoire (its combining
marks are all of combining class 230, so no reordering occurs). -/
def decompPairs : List (Char × PyStr) :=
  [('ā', ['a', markOfTone1]), ('á', ['a', markOfTone2]), ('ǎ', ['a', markOfTone3]), ('à', ['a', markOfTone4]),
   ('ē', ['e', markOfTone1]), ('é', ['e', markOfTone2]), ('ě', ['e', markOfTone3]), ('è', ['e', markOfTone4]),
   ('ī', ['i', markOfTone1]), ('í', ['i', markOfTone2]), ('ǐ', ['i', markOfTone3]), ('ì', ['i', markOfTone4]),
   ('ō', ['o', markOfTone1]), ('ó', ['o', markOfTone2]), ('ǒ', ['o', markOfTone3]), ('ò', ['o', markOfTone4]),
   ('ū', ['u', markOfTone1]), ('ú', ['u', markOfTone2]), ('ǔ', ['u', markOfTone3]), ('ù', ['u', markOfTone4]),
   ('ü', ['u', combiningDiaeresis]), ('Ü', ['U', combiningDiaeresis]),
   ('ǖ', ['u', combiningDiaeresis, markOfTone1]), ('ǘ', ['u', combiningDiaeresis, markOfTone2]),
   ('ǚ', ['u', combiningDiaeresis, markOfTone3]), ('ǜ', ['u', combiningDiaeresis, markOfTone4]),
   ('Ā', ['A', markOfTone1]), ('Á', ['A', markOfTone2]), ('Ǎ', ['A', markOfTone3]), ('À', ['A', markOfTone4]),
   ('Ē', ['E', markOfTone1]), ('É', ['E', markOfTone2]), ('Ě', ['E', markOfTone3]), ('È', ['E', markOfTone4]),
   ('Ī', ['I', markOfTone1]), ('Í', ['I', markOfTone2]), ('Ǐ', ['I', markOfTone3]), ('Ì', ['I', markOfTone4]),
   ('Ō', ['O', markOfTone1]), ('Ó', ['O', markOfTone2]), ('Ǒ', ['O', markOfTone3]), ('Ò', ['O', markOfTone4]),
   ('Ū', ['U', markOfTone1]), ('Ú', ['U', markOfTone2]), ('Ǔ', ['U', markOfTone3]), ('Ù', ['U', markOfTone4]),
   ('Ǖ', ['U', combiningDiaeresis, markOfTone1]), ('Ǘ', ['U', combiningDiaeresis, markOfTone2]),
   ('Ǚ', ['U', combiningDiaeresis, markOfTone3]), ('Ǜ', ['U', combiningDiaeresis, markOfTone4])]

def decomposeChar (c : Char) : PyStr :=
  ((decompPairs.find? (fun p => p.1 = c)).map Prod.snd).getD [c]

/-- `unicodedata.normalize('NFD', ...)` restricted to the pinyin repertoire. -/
def nfd (l : PyStr) : PyStr := l.flatMap decomposeChar

/-- Compose a base character with a following combining mark, if the pair
composes canonically. -/
def compose (c d : Char) : Option Char :=
  (composeTable.find? (fun e => e.1 = c ∧ e.2.1 = d)).map (fun e => e.2.2)

/-- Recomposition step: fuse the pending character `c` with the following
combining marks of the rest of the string. -/
def nfcAux (c : Char) : PyStr → PyStr
  | [] => [c]
  | d :: rest =>
    match compose c d with
    | some e => nfcAux e rest
    | none => c :: nfcAux d rest

/-- `unicodedata.normalize('NFC', ...)` restricted to the pinyin
repertoire: fuse each base character with following combining marks. -/
def nfc : PyStr → PyStr
  | [] => []
  | c :: rest => nfcAux c rest

/-- The error kinds `Pinyin.parse` can raise (all are `ValueError` in the
source; we separate them by the message). -/
inductive ParseError where
  | invalidLength
  | missingNumericTone
  | ambiguousTone
  | notASyllable
deriving DecidableEq, Repr

/-- `Pinyin` from model.py: a spelling plus tone info. -/
structure Pinyin where
  word : PyStr
  toneinfo : ToneInfo
deriving DecidableEq, Repr

/-- `Pinyin.numericformat(hideneutraltone, tone="written")` with the
default `tone` field. -/
def Pinyin.numericformat (p : Pinyin) (hideneutraltone : Bool) : PyStr :=
  if hideneutraltone ∧ p.toneinfo.written = some 5 then p.word
  else p.word ++ pyStrOfTone p.toneinfo.written

/-- `Pinyin.iser`: true iff the spelling lowercases to "r" and the written
tone is 5. -/
def Pinyin.iser (p : Pinyin) : Bool :=
  decide (p.word.map pyLower = ['r']) && decide (p.toneinfo.written = some 5)

/-- The mark-scanning loop of `Pinyin.parse`: iterate over the enumerated
combining marks (the blank fifth entry is skipped by the `!= ""` test in
the source), recording the tone of the first mark found in `text` and
stripping that mark from `word`; a second distinct mark found in `text`
raises the ambiguous-tone error.  The tone numbers paired with the marks
are `n+1` for enumeration index `n`. -/
def scanMarksAux : List (Nat × Char) → Option ToneInfo → PyStr → PyStr →
    Except ParseError (Option ToneInfo × PyStr)
  | [], acc, _, word => .ok (acc, word)
  | (n, m) :: rest, acc, text, word =>
    if m ∈ text then
      match acc with
      | some _ => .error .ambiguousTone
      | none => scanMarksAux rest (some (ToneInfo.make (some n) none)) text
          (word.filter (fun c => c ≠ m))
    else scanMarksAux rest acc text word

/-- The enumerated non-blank combining marks with their tone numbers. -/
def marksWithTone : List (Nat × Char) :=
  [(1, markOfTone1), (2, markOfTone2), (3, markOfTone3), (4, markOfTone4)]

/-- `Pinyin.parse(text, forcenumeric)` from model.py.  The validity set is
external (database-backed, outside src/), so it is taken as a parameter
`valid`; membership is tested on the lowercased word exactly as in the
source.  A final digit character contributes `int(char)` as the written
tone (the source performs no 1..5 range check). -/
def Pinyin.parse (valid : List PyStr) (text0 : PyStr) (forcenumeric : Bool) :
    Except ParseError Pinyin :=
  let text := substituteForUUmlaut text0
  if text.length < 2 ∨ text.length > 8 then .error .invalidLength
  else
    match text.getLast? with
    | none => .error .invalidLength  -- unreachable: the length check guarantees text ≠ []
    | some c =>
      if c.isDigit then
        let word := text.dropLast
        if word.map pyLower ∈ valid then
          .ok ⟨word, ToneInfo.make (some (c.toNat - 48)) none⟩
        else .error .notASyllable
      else if forcenumeric then .error .missingNumericTone
      else
        let t2 := nfd text
        match scanMarksAux marksWithTone none t2 t2 with
        | .error e => .error e
        | .ok (acc, w) =>
          let word := nfc w
          if word.map pyLower ∈ valid then
            .ok ⟨word, acc.getD (ToneInfo.make (some 5) none)⟩
          else .error .notASyllable

/-- The three token variants of the data model.  `Text` and
`TonedCharacter` carry their content as a string field (the source's
string-subclassing); the non-emptiness their constructors enforce is
modelled where it matters (`mkText`). -/
inductive Token where
  | text : PyStr → Token
  | pinyin : Pinyin → Token
  | tonedCharacter : PyStr → ToneInfo → Token
deriving DecidableEq, Repr

/-- The `Text` constructor: raises on empty content. -/
def mkText (s : PyStr) : Option Token :=
  if s = [] then none else some (.text s)

/-- A demonstration instance of the external syllable validity set, holding
spellings the spec itself asserts are valid ("hen", "ni", "hao") plus the
manually injected "r" sentinel.  Used to instantiate theorems at concrete
inputs. -/
def demoValid : List PyStr :=
  [['h', 'e', 'n'], ['n', 'i'], ['h', 'a', 'o'], ['r']]

/-- `tokenizeonewitherhua(possible_token, forcenumeric)` from model.py:
try a vanilla parse; on failure, if the token lowercases to something
ending in "r", retry without the final character and on success emit the
parsed syllable followed by `Pinyin(possible_token[-1], 5)` (note: the
original final character, not a literal "r"); otherwise fall back to a
single `Text` token. -/
def tokenizeonewitherhua (valid : List PyStr) (possible_token : PyStr)
    (forcenumeric : Bool) : List Token :=
  match Pinyin.parse valid possible_token forcenumeric with
  | .ok py => [.pinyin py]
  | .error _ =>
    match (possible_token.map pyLower).getLast? with
    | some 'r' =>
      match Pinyin.parse valid possible_token.dropLast forcenumeric with
      | .ok py2 =>
        [.pinyin py2,
         .pinyin ⟨[possible_token.getLastD ' '], ToneInfo.make (some 5) none⟩]
      | .error _ => [.text possible_token]
    | _ => [.text possible_token]

/-- Modelled from the spec: the character class of the tokenizer's regex
`(\w|:)+` under `re.UNICODE` — a "word character or colon".  Word
characters are alphanumerics and the underscore; the pinyin repertoire's
precomposed letters are word characters too (standalone combining marks
are not). -/
def isWordChar (c : Char) : Bool :=
  c.isAlphanum || c = '_' || c = ':' ||
    (decompPairs.map Prod.fst).contains c

/-- Modelled from the spec: `utils.regexparse` (outside src/) splits the
input into maximal runs matching the regex (flagged `true`) and the
verbatim text between them (flagged `false`), covering every input
character. -/
def segsAux (p : Bool) (acc : PyStr) : PyStr → List (Bool × PyStr)
  | [] => [(p, acc.reverse)]
  | c :: cs =>
    if isWordChar c = p then segsAux p (c :: acc) cs
    else (p, acc.reverse) :: segsAux (isWordChar c) [c] cs

def segs : PyStr → List (Bool × PyStr)
  | [] => []
  | c :: cs => segsAux (isWordChar c) [c] cs

/-- `tokenize(text, forcenumeric)` from model.py: recognised runs go
through erhua-aware syllable recovery, everything between them becomes a
verbatim `Text` token (runs and gaps are non-empty, so the `Text`
constructor's non-emptiness check passes). -/
def tokenize (valid : List PyStr) (text : PyStr) (forcenumeric : Bool) :
    List Token :=
  (segs text).flatMap
    (fun s => if s.1 then tokenizeonewitherhua valid s.2 forcenumeric
              else [.text s.2])

/-! The diacritic transformer `PinyinTonifier`.  Its first two passes are
`re.sub` calls over a dict of patterns; we apply them in the source's
literal order (the claims proved below do not depend on the dict iteration
order). -/

def isToneDigit14 (c : Char) : Bool :=
  c = '1' || c = '2' || c = '3' || c = '4'

def isNR (c : Char) : Bool := c = 'n' || c = 'N' || c = 'r' || c = 'R'
def isNn (c : Char) : Bool := c = 'n' || c = 'N'
def isGg (c : Char) : Bool := c = 'g' || c = 'G'
def isAa (c : Char) : Bool := c = 'a' || c = 'A'
def isIiOo (c : Char) : Bool := c = 'i' || c = 'I' || c = 'o' || c = 'O'
def isEe (c : Char) : Bool := c = 'e' || c = 'E'
def isIi (c : Char) : Bool := c = 'i' || c = 'I'
def isOo (c : Char) : Bool := c = 'o' || c = 'O'
def isUu (c : Char) : Bool := c = 'u' || c = 'U'

/-- `re.sub(u'([nNrR])([1234])', r'\g<2>\g<1>', line)`: move a tone digit
before an immediately preceding final n/r (leftmost, non-overlapping). -/
def subNrTone : PyStr → PyStr
  | [] => []
  | [c] => [c]
  | c :: d :: rest =>
    if isNR c && isToneDigit14 d then d :: c :: subNrTone rest
    else c :: subNrTone (d :: rest)

/-- `re.sub(u'([nN][gG])([1234])', r'\g<2>\g<1>', line)`: move a tone
digit before an immediately preceding final "ng". -/
def subNgTone : PyStr → PyStr
  | c :: d :: e :: rest =>
    if isNn c && isGg d && isToneDigit14 e then e :: c :: d :: subNgTone rest
    else c :: subNgTone (d :: e :: rest)
  | l => l

/-- One vowel-pair pass `re.sub(u'(V1)(V2)([1234])', r'\g<1>\g<3>\g<2>',
line)`: move the tone digit between the two vowels. -/
def subVowelPair (first second : Char → Bool) : PyStr → PyStr
  | a :: b :: t :: rest =>
    if first a && second b && isToneDigit14 t then
      a :: t :: b :: subVowelPair first second rest
    else a :: subVowelPair first second (b :: t :: rest)
  | l => l

/-- The third tonify pass: `line.replace(str(x+1), mark)` for the
enumerated `tonecombiningmarks` - digits 1-4 become combining marks, digit
5 is deleted, in that order. -/
def toneDigitsToMarks (l : PyStr) : PyStr :=
  replace1 '5' []
    (replace1 '4' [markOfTone4]
      (replace1 '3' [markOfTone3]
        (replace1 '2' [markOfTone2]
          (replace1 '1' [markOfTone1] l))))

namespace PinyinTonifier

/-- `PinyinTonifier.tonify(line)`: consonant-final tone relocation, then
vowel-pair relocation, then digit-to-mark substitution, then NFC
recomposition. -/
def tonify (line : PyStr) : PyStr :=
  nfc (toneDigitsToMarks
    (subVowelPair isOo isUu
      (subVowelPair isEe isIi
        (subVowelPair isAa isIiOo
          (subNgTone (subNrTone line))))))

end PinyinTonifier

/-- `Pinyin.tonifiedformat`. -/
def Pinyin.tonifiedformat (p : Pinyin) : PyStr :=
  PinyinTonifier.tonify (p.numericformat false)

/-- The per-token string produced by `FlattenTokensVisitor`: `Text` and
`TonedCharacter` contribute their content, `Pinyin` contributes its
tonified format when `tonify` is set and otherwise its `__unicode__`
(numeric format with the neutral tone hidden). -/
def flattenToken (tonify : Bool) : Token → PyStr
  | .text s => s
  | .pinyin p => if tonify then p.tonifiedformat else p.numericformat true
  | .tonedCharacter s _ => s

/-- `flatten(words, tonify)` from model.py: visit every token of every
word in order, accumulating the output string. -/
def flatten (words : List (List Token)) (tonify : Bool) : PyStr :=
  (words.flatMap id).flatMap (flattenToken tonify)

/-- Modelled from the spec: `utils.ispunctuation` (outside src/) — whether
a character is punctuation. -/
def ispunctuation (c : Char) : Bool :=
  c ∈ ['.', ',', '!', '?', ';', ':', '"', '(', ')', '[', ']', '-']

/-- Modelled from the spec: `utils.ispostspacedpunctuation` (outside
src/) — punctuation that requires a trailing space even though it is
punctuation (for example a comma or full stop). -/
def ispostspacedpunctuation (s : PyStr) : Bool :=
  s ∈ [['.'], [','], ['!'], ['?'], [';'], [':']]

/-- The per-token update of `NeedsSpaceBeforeAppendVisitor`: each visit
overwrites the flag.  `Text`/`TonedCharacter` consult their final
character, `Pinyin` always sets the flag. -/
def needsSpaceAfterToken : Token → Bool
  | .text s =>
    (match s.getLast? with
     | some c => !c.isWhitespace && !ispunctuation c
     | none => false) || ispostspacedpunctuation s
  | .tonedCharacter s _ =>
    (match s.getLast? with
     | some c => !c.isWhitespace && !ispunctuation c
     | none => false) || ispostspacedpunctuation s
  | .pinyin _ => true

/-- `needsspacebeforeappend(words)` from model.py: run the visitor over
every token of every word; the flag starts `False` and each token visit
overwrites it, so the final value comes from the last token visited. -/
def needsspacebeforeappend (words : List (List Token)) : Bool :=
  (words.flatMap id).foldl (fun _ tok => needsSpaceAfterToken tok) false

/-- Whether a token has a `toneinfo` attribute (`hasattr` in the source:
`Pinyin` and `TonedCharacter` do, `Text` does not). -/
def hasToneinfo : Token → Bool
  | .pinyin _ => true
  | .tonedCharacter _ _ => true
  | .text _ => false

/-- The `toneinfo` attribute of a token that has one. -/
def tokenToneinfo : Token → ToneInfo
  | .pinyin p => p.toneinfo
  | .tonedCharacter _ ti => ti
  | .text _ => ⟨none, none⟩

/-- The per-character step of `tonedcharactersfromreading`: a reading
token with tone info and a non-decimal character yield a
`TonedCharacter`; otherwise the character becomes `Text`.  Python
`isdecimal` is modelled on the ASCII digits. -/
def alignOne (character : Char) (reading_token : Token) : Token :=
  if hasToneinfo reading_token && !character.isDigit then
    .tonedCharacter [character] (tokenToneinfo reading_token)
  else .text [character]

/-- `tonedcharactersfromreading(characters, reading_tokens)` from
model.py: differing counts fall back to `[Text(characters)]` (whose
constructor raises when `characters` is empty, hence the `Option`); equal
counts pair characters with tokens positionally. -/
def tonedcharactersfromreading (characters : PyStr)
    (reading_tokens : List Token) : Option (List Token) :=
  if characters.length ≠ reading_tokens.length then
    (mkText characters).map (fun t => [t])
  else some (List.zipWith alignOne characters reading_tokens)

/-! Decidable equality for parse results, so concrete runs of the parser
can be checked by `decide`. -/

instance {ε α : Type} [DecidableEq ε] [DecidableEq α] : DecidableEq (Except ε α) := fun a b =>
  match a, b with
  | .ok x, .ok y =>
    if h : x = y then isTrue (by rw [h]) else isFalse (fun hh => h (Except.ok.inj hh))
  | .error x, .error y =>
    if h : x = y then isTrue (by rw [h]) else isFalse (fun hh => h (Except.error.inj hh))
  | .ok _, .error _ => isFalse (fun hh => Except.noConfusion hh)
  | .error _, .ok _ => isFalse (fun hh => Except.noConfusion hh)

/-- `str(t)` of a one-digit tone is the corresponding digit character. -/
theorem toDigits_single (t : Nat) (h1 : 1 ≤ t) (h9 : t ≤ 9) :
    Nat.toDigits 10 t = [Char.ofNat (48 + t)] := by
  interval_cases t <;> rfl

/-- C1: for every spelling `s` of the validity set (such spellings are
lowercase, ü-normalised, of length 1-7) and every tone `t` in 1..5,
`Pinyin.parse` applied to `numericformat(hideneutraltone=false)` of
`Pinyin(s, ToneInfo(written=t))` succeeds and returns an equal `Pinyin`
(equal word and equal `ToneInfo`). -/
theorem parse_numericformat_roundtrip (valid : List PyStr) (s : PyStr) (t : Nat)
    (ht1 : 1 ≤ t) (ht5 : t ≤ 5)
    (hlen1 : 1 ≤ s.length) (hlen7 : s.length ≤ 7)
    (hsub : substituteForUUmlaut (s ++ [Char.ofNat (48 + t)]) = s ++ [Char.ofNat (48 + t)])
    (hlower : s.map pyLower = s)
    (hvalid : s ∈ valid) :
    Pinyin.parse valid ((Pinyin.mk s (ToneInfo.make (some t) none)).numericformat false) false
      = .ok ⟨s, ToneInfo.make (some t) none⟩ := by
  have hmk : ToneInfo.make (some t) none = ⟨some t, some t⟩ := by
    simp only [ToneInfo.make, pyOrTone]
    rw [if_neg (by simp; omega), if_pos (by simp)]
  have hnf : (Pinyin.mk s (ToneInfo.make (some t) none)).numericformat false
      = s ++ [Char.ofNat (48 + t)] := by
    rw [Pinyin.numericformat, if_neg (by simp)]
    simp [hmk, pyStrOfTone, toDigits_single t ht1 (by omega)]
  rw [hnf]
  have hdig : (Char.ofNat (48 + t)).isDigit = true := by
    interval_cases t <;> decide
  have htn : (Char.ofNat (48 + t)).toNat - 48 = t := by
    interval_cases t <;> decide
  simp only [Pinyin.parse, hsub, List.length_append, List.getLast?_concat,
    List.dropLast_concat, hdig, hlower, List.length_cons, List.length_nil]
  rw [if_neg (by omega), if_pos hvalid, htn]
  simp

/-- C1 witness: the round trip at the spec's own scenario, spelling "hen"
with tone 3 over the demonstration validity set. -/
theorem parse_numericformat_roundtrip_witness :
    (1 ≤ 3 ∧ 3 ≤ 5 ∧ (['h', 'e', 'n'] : PyStr) ∈ demoValid) ∧
    Pinyin.parse demoValid
        ((Pinyin.mk ['h', 'e', 'n'] (ToneInfo.make (some 3) none)).numericformat false) false
      = .ok ⟨['h', 'e', 'n'], ToneInfo.make (some 3) none⟩ :=
  ⟨by decide,
   parse_numericformat_roundtrip demoValid ['h', 'e', 'n'] 3 (by decide) (by decide)
     (by decide) (by decide) (by decide) (by decide) (by decide)⟩

/-- C4 (amended): a successful parse of an input whose (umlaut-normalised)
final character is a digit returns that digit's integer value to
`ToneInfo` (whose `or`-defaulting is the identity for digits 1-9) and the
remainder as the spelling.  The source performs no 1..5 range check, so
the claim's "parse never succeeds with a written tone outside 1..5" is
refuted by `parse_accepts_out_of_range_tone` below. -/
theorem parse_final_digit_shape (valid : List PyStr) (text0 : PyStr) (fn : Bool)
    (py : Pinyin) (c : Char)
    (hlast : (substituteForUUmlaut text0).getLast? = some c)
    (hdig : c.isDigit = true)
    (hok : Pinyin.parse valid text0 fn = .ok py) :
    py = ⟨(substituteForUUmlaut text0).dropLast,
          ToneInfo.make (some (c.toNat - 48)) none⟩ := by
  rw [Pinyin.parse] at hok
  simp only [hlast, hdig, if_true] at hok
  split at hok
  · cases hok
  · split at hok
    · injection hok with h
      exact h.symm
    · cases hok

/-- C4 witness: the amended shape at the numeric input "hen3". -/
theorem parse_final_digit_shape_witness :
    ((substituteForUUmlaut ['h', 'e', 'n', '3']).getLast? = some '3'
      ∧ '3'.isDigit = true
      ∧ Pinyin.parse demoValid ['h', 'e', 'n', '3'] false
          = .ok ⟨['h', 'e', 'n'], ToneInfo.make (some 3) none⟩)
    ∧ (⟨['h', 'e', 'n'], ToneInfo.make (some 3) none⟩ : Pinyin)
        = ⟨(substituteForUUmlaut ['h', 'e', 'n', '3']).dropLast,
           ToneInfo.make (some ('3'.toNat - 48)) none⟩ :=
  ⟨⟨by decide, by decide, by decide⟩,
   parse_final_digit_shape demoValid ['h', 'e', 'n', '3'] false
     ⟨['h', 'e', 'n'], ToneInfo.make (some 3) none⟩ '3'
     (by decide) (by decide) (by decide)⟩

/-- C4 counterexample: `parse` accepts "hen9" and returns written tone 9,
outside 1..5, because the source never range-checks the digit. -/
theorem parse_accepts_out_of_range_tone :
    Pinyin.parse demoValid ['h', 'e', 'n', '9'] false
      = .ok ⟨['h', 'e', 'n'], ⟨some 9, some 9⟩⟩ ∧ ¬(1 ≤ 9 ∧ 9 ≤ 5) :=
  ⟨by decide, by decide⟩

/-- C3 (amended): for every run that fails to parse as a syllable, whose
lowercased form ends in "r", and whose prefix without the final character
parses, `tokenizeonewitherhua` emits the parsed prefix syllable followed
by `Pinyin` of the run's original final character (not a literal "r")
with tone 5; that second token satisfies `iser`.  The claim's literal
"Syllable(\"r\", tone=5)" is refuted for an uppercase final R by
`erhua_capital_R_not_lowercase_r` below. -/
theorem tokenizeonewitherhua_erhua_recovery (valid : List PyStr) (run : PyStr) (fn : Bool)
    (py : Pinyin) (c : Char) (e : ParseError)
    (hfail : Pinyin.parse valid run fn = .error e)
    (hlast : run.getLast? = some c)
    (hr : pyLower c = 'r')
    (hpre : Pinyin.parse valid run.dropLast fn = .ok py) :
    tokenizeonewitherhua valid run fn
      = [.pinyin py, .pinyin ⟨[c], ToneInfo.make (some 5) none⟩]
    ∧ Pinyin.iser ⟨[c], ToneInfo.make (some 5) none⟩ = true := by
  have h2 : (run.map pyLower).getLast? = some 'r' := by
    rw [List.getLast?_map, hlast]
    simp [hr]
  have h3 : run.getLastD ' ' = c := by
    rw [List.getLastD_eq_getLast?, hlast]
    rfl
  constructor
  · rw [tokenizeonewitherhua, hfail]
    simp only [h2, hpre, h3]
  · simp [Pinyin.iser, hr, ToneInfo.make, pyOrTone]

/-- C3 witness: the spec's scenario "ni3r" - the parse fails, "ni3"
parses as ni/3, and the two emitted tokens are ni3 and r5 with `iser`. -/
theorem tokenizeonewitherhua_erhua_recovery_witness :
    (Pinyin.parse demoValid ['n', 'i', '3', 'r'] false = .error .notASyllable
      ∧ pyLower 'r' = 'r'
      ∧ Pinyin.parse demoValid ['n', 'i', '3'] false
          = .ok ⟨['n', 'i'], ToneInfo.make (some 3) none⟩)
    ∧ (tokenizeonewitherhua demoValid ['n', 'i', '3', 'r'] false
        = [.pinyin ⟨['n', 'i'], ToneInfo.make (some 3) none⟩,
           .pinyin ⟨['r'], ToneInfo.make (some 5) none⟩]
       ∧ Pinyin.iser ⟨['r'], ToneInfo.make (some 5) none⟩ = true) :=
  ⟨⟨by decide, by decide, by decide⟩,
   tokenizeonewitherhua_erhua_recovery demoValid ['n', 'i', '3', 'r'] false
     ⟨['n', 'i'], ToneInfo.make (some 3) none⟩ 'r' .notASyllable
     (by decide) (by decide) (by decide) (by decide)⟩

/-- C3 counterexample: the run "NI3R" satisfies the claim's conditions
(parse fails, ends in "r" case-insensitively, prefix "NI3" parses), but
the emitted second token is `Pinyin("R", 5)`, not `Pinyin("r", 5)`. -/
theorem erhua_capital_R_not_lowercase_r :
    (Pinyin.parse demoValid ['N', 'I', '3', 'R'] false = .error .notASyllable
      ∧ (['N', 'I', '3', 'R'].map pyLower).getLast? = some 'r'
      ∧ Pinyin.parse demoValid ['N', 'I', '3'] false
          = .ok ⟨['N', 'I'], ToneInfo.make (some 3) none⟩)
    ∧ tokenizeonewitherhua demoValid ['N', 'I', '3', 'R'] false
        ≠ [.pinyin ⟨['N', 'I'], ToneInfo.make (some 3) none⟩,
           .pinyin ⟨['r'], ToneInfo.make (some 5) none⟩] :=
  ⟨⟨by decide, by decide, by decide⟩, by decide⟩

/-- The mark-scanning loop errors as soon as a mark is found while a tone
was already recorded. -/
theorem scanMarksAux_some_mark (L : List (Nat × Char)) (t : PyStr)
    (h : ∃ p ∈ L, p.2 ∈ t) (ti : ToneInfo) (w : PyStr) :
    scanMarksAux L (some ti) t w = .error .ambiguousTone := by
  induction L generalizing w with
  | nil => simp at h
  | cons q rest ih =>
    rw [scanMarksAux]
    by_cases hm : q.2 ∈ t
    · simp [hm]
    · rw [if_neg hm]
      rcases h with ⟨p, hp, hpt⟩
      rcases List.mem_cons.mp hp with rfl | hp2
      · exact absurd hpt hm
      · exact ih ⟨p, hp2, hpt⟩ w

/-- The mark-scanning loop errors whenever at least two distinct
recognised marks occur in the scanned text. -/
theorem scanMarksAux_two_marks (L : List (Nat × Char)) (t : PyStr)
    (h : 2 ≤ (L.filter (fun p => p.2 ∈ t)).length) (w : PyStr) :
    scanMarksAux L none t w = .error .ambiguousTone := by
  induction L generalizing w with
  | nil => simp at h
  | cons q rest ih =>
    rw [scanMarksAux]
    by_cases hm : q.2 ∈ t
    · rw [if_pos hm]
      have h1 : 0 < (rest.filter (fun p => p.2 ∈ t)).length := by
        have h2 := h
        rw [List.filter_cons_of_pos (by simpa using hm)] at h2
        simp only [List.length_cons] at h2
        omega
      obtain ⟨p, hp⟩ := List.exists_mem_of_ne_nil _ (List.length_pos.mp h1)
      exact scanMarksAux_some_mark rest t
        ⟨p, List.mem_of_mem_filter hp, by simpa using List.of_mem_filter hp⟩ _ _
    · rw [if_neg hm]
      apply ih
      rwa [List.filter_cons_of_neg (by simpa using hm)] at h

/-- C5 (amended): for every input (forcenumeric false) of legal length
whose final character is not a digit and whose Unicode decomposition
contains at least two DISTINCT recognised combining tone marks,
`Pinyin.parse` fails with the ambiguous-tone error.  The claim's "more
than one occurrence" is refuted by `parse_duplicate_mark_succeeds` below:
a single mark kind occurring twice parses successfully, because the
source raises only when a second distinct mark kind is found. -/
theorem parse_distinct_marks_ambiguous (valid : List PyStr) (text0 : PyStr) (c : Char)
    (hlen : ¬((substituteForUUmlaut text0).length < 2 ∨ (substituteForUUmlaut text0).length > 8))
    (hlast : (substituteForUUmlaut text0).getLast? = some c)
    (hdig : c.isDigit = false)
    (hcount : 2 ≤ (marksWithTone.filter
        (fun p => p.2 ∈ nfd (substituteForUUmlaut text0))).length) :
    Pinyin.parse valid text0 false = .error .ambiguousTone := by
  rw [Pinyin.parse]
  simp only [hlast, hdig, if_neg hlen, Bool.false_eq_true, if_false]
  rw [scanMarksAux_two_marks marksWithTone _ hcount]

/-- C5 witness: a macron and a grave on "hen" make parse fail with the
ambiguous-tone error. -/
theorem parse_distinct_marks_ambiguous_witness :
    ((substituteForUUmlaut ['h', 'e', markOfTone1, markOfTone4, 'n']).getLast? = some 'n'
      ∧ 'n'.isDigit = false
      ∧ 2 ≤ (marksWithTone.filter
          (fun p => p.2 ∈ nfd (substituteForUUmlaut ['h', 'e', markOfTone1, markOfTone4, 'n']))).length)
    ∧ Pinyin.parse demoValid ['h', 'e', markOfTone1, markOfTone4, 'n'] false
        = .error .ambiguousTone :=
  ⟨⟨by decide, by decide, by decide⟩,
   parse_distinct_marks_ambiguous demoValid ['h', 'e', markOfTone1, markOfTone4, 'n'] 'n'
     (by decide) (by decide) (by decide) (by decide)⟩

/-- C5 counterexample: "hen" carrying the macron twice - the
decomposition contains two occurrences of recognised combining tone
marks, yet parse succeeds with tone 1 instead of failing. -/
theorem parse_duplicate_mark_succeeds :
    2 ≤ ((nfd (substituteForUUmlaut ['h', 'e', markOfTone1, markOfTone1, 'n'])).filter
        (fun c => c ∈ [markOfTone1, markOfTone2, markOfTone3, markOfTone4])).length
    ∧ Pinyin.parse demoValid ['h', 'e', markOfTone1, markOfTone1, 'n'] false
        = .ok ⟨['h', 'e', 'n'], ⟨some 1, some 1⟩⟩ :=
  ⟨by decide, by decide⟩

/-- Joining the segment contents reproduces the scanned string. -/
theorem segsAux_join (l : PyStr) : ∀ (p : Bool) (acc : PyStr),
    ((segsAux p acc l).map Prod.snd).flatten = acc.reverse ++ l := by
  induction l with
  | nil => intro p acc; simp [segsAux]
  | cons c cs ih =>
    intro p acc
    rw [segsAux]
    by_cases hc : isWordChar c = p
    · rw [if_pos hc, ih]
      simp
    · rw [if_neg hc]
      simp only [List.map_cons, List.flatten_cons, ih]
      simp

/-- Every input character is accounted for by the segmentation. -/
theorem segs_join (t : PyStr) : ((segs t).map Prod.snd).flatten = t := by
  cases t with
  | nil => rfl
  | cons c cs => rw [segs, segsAux_join]; rfl

/-- A string whose characters all classify alike is one segment. -/
theorem segsAux_const (l : PyStr) : ∀ (p : Bool) (acc : PyStr),
    (∀ c ∈ l, isWordChar c = p) → segsAux p acc l = [(p, acc.reverse ++ l)] := by
  induction l with
  | nil => intro p acc _; simp [segsAux]
  | cons c cs ih =>
    intro p acc hall
    rw [segsAux, if_pos (hall c (by simp)), ih p _ (fun d hd => hall d (by simp [hd]))]
    simp

/-- C6 (amended): `tokenize` never fails and accounts for every input
character (the segment contents concatenate to the input); and for pure
non-syllable input forming a SINGLE segment (all word-characters with no
successful vanilla or erhua-prefix parse, or all non-word characters),
it returns exactly one `Text` token equal to the input.  The claim's
"exactly one Text token" for arbitrary pure non-syllable text is refuted
by `tokenize_pure_text_not_single_token` below: the tokenizer splits at
every word/non-word boundary. -/
theorem tokenize_single_segment_text :
    (∀ t : PyStr, ((segs t).map Prod.snd).flatten = t)
    ∧ (∀ (valid : List PyStr) (text : PyStr) (fn : Bool),
        text ≠ [] →
        (((∀ c ∈ text, isWordChar c = true)
            ∧ (∀ py, Pinyin.parse valid text fn ≠ .ok py)
            ∧ (∀ py, Pinyin.parse valid text.dropLast fn ≠ .ok py))
          ∨ (∀ c ∈ text, isWordChar c = false)) →
        tokenize valid text fn = [.text text]) := by
  constructor
  · exact segs_join
  · intro valid text fn hne hcase
    have hsegs : ∀ b, (∀ c ∈ text, isWordChar c = b) → segs text = [(b, text)] := by
      intro b hall
      cases text with
      | nil => exact absurd rfl hne
      | cons c cs =>
        rw [segs, hall c (by simp), segsAux_const cs b [c] (fun d hd => hall d (by simp [hd]))]
        rfl
    rcases hcase with ⟨hword, hfail, hpre⟩ | hnot
    · rw [tokenize, hsegs true hword]
      simp only [List.flatMap_cons, List.flatMap_nil, List.append_nil, if_pos rfl]
      rw [tokenizeonewitherhua]
      cases h1 : Pinyin.parse valid text fn with
      | ok py => exact absurd h1 (hfail py)
      | error e1 =>
        split
        · cases h3 : Pinyin.parse valid text.dropLast fn with
          | ok py2 => exact absurd h3 (hpre py2)
          | error e2 =>
            simp only [h3]
            split <;> rfl
        · rfl
    · rw [tokenize, hsegs false hnot]
      simp [tokenizeonewitherhua]

/-- A fold that overwrites its state at every element returns the image
of the last element (or the initial state for an empty list). -/
theorem foldl_overwrite {α β : Type} (f : α → β) (init : β) (l : List α) :
    l.foldl (fun _ x => f x) init = (l.map f).getLastD init := by
  induction l generalizing init with
  | nil => rfl
  | cons c cs ih =>
    rw [List.foldl_cons, ih, List.map_cons, List.getLastD_cons]

/-- When the last word is non-empty, the last token of the flattened
word list is the last token of that last word. -/
theorem flatMap_id_getLast? (ws : List (List Token)) (w : List Token) (t : Token)
    (hw : ws.getLast? = some w) (ht : w.getLast? = some t) :
    (ws.flatMap id).getLast? = some t := by
  induction ws with
  | nil => cases hw
  | cons w0 rest ih =>
    cases rest with
    | nil =>
      simp only [List.getLast?_singleton, Option.some.injEq] at hw
      subst hw
      simpa using ht
    | cons r rs =>
      rw [List.getLast?_cons_cons] at hw
      have hlast := ih hw
      have hne : ((r :: rs).flatMap id) ≠ [] := by
        intro hnil
        rw [hnil] at hlast
        cases hlast
      rw [List.flatMap_cons, id]
      rw [List.getLast?_append_of_ne_nil _ hne]
      exact hlast

/-- `needsspacebeforeappend` equals the visitor's answer on the last
token of the last word, whenever that word is non-empty. -/
theorem needs_eq_last (ws : List (List Token)) (t : Token)
    (h : ws.getLast?.bind List.getLast? = some t) :
    needsspacebeforeappend ws = needsSpaceAfterToken t := by
  obtain ⟨w, hw, ht⟩ := Option.bind_eq_some.mp h
  rw [needsspacebeforeappend, foldl_overwrite, List.getLastD_eq_getLast?, List.getLast?_map,
      flatMap_id_getLast? ws w t hw ht]
  rfl

/-- C8: `needsspacebeforeappend` depends only on the last token of the
last word - two word lists whose (non-empty) last words end in the same
token agree - and a trailing `Pinyin` token always yields `true`. -/
theorem needsspacebeforeappend_last_token :
    (∀ (ws1 ws2 : List (List Token)) (t : Token),
        ws1.getLast?.bind List.getLast? = some t →
        ws2.getLast?.bind List.getLast? = some t →
        needsspacebeforeappend ws1 = needsspacebeforeappend ws2)
    ∧ (∀ (ws : List (List Token)) (p : Pinyin),
        ws.getLast?.bind List.getLast? = some (.pinyin p) →
        needsspacebeforeappend ws = true) := by
  constructor
  · intro ws1 ws2 t h1 h2
    rw [needs_eq_last ws1 t h1, needs_eq_last ws2 t h2]
  · intro ws p h
    rw [needs_eq_last ws _ h]
    rfl

/-- C8 witness: two different word lists ending in the same Pinyin token
agree, and the result is true. -/
theorem needsspacebeforeappend_last_token_witness :
    (([[Token.text [',']], [Token.text ['a'], Token.pinyin ⟨['h', 'e', 'n'], ⟨some 3, some 3⟩⟩]] :
        List (List Token)).getLast?.bind List.getLast?
      = some (Token.pinyin ⟨['h', 'e', 'n'], ⟨some 3, some 3⟩⟩)
     ∧ ([[Token.pinyin ⟨['h', 'e', 'n'], ⟨some 3, some 3⟩⟩]] :
        List (List Token)).getLast?.bind List.getLast?
      = some (Token.pinyin ⟨['h', 'e', 'n'], ⟨some 3, some 3⟩⟩))
    ∧ needsspacebeforeappend [[Token.text [',']], [Token.text ['a'], Token.pinyin ⟨['h', 'e', 'n'], ⟨some 3, some 3⟩⟩]]
        = needsspacebeforeappend [[Token.pinyin ⟨['h', 'e', 'n'], ⟨some 3, some 3⟩⟩]]
    ∧ needsspacebeforeappend [[Token.pinyin ⟨['h', 'e', 'n'], ⟨some 3, some 3⟩⟩]] = true :=
  ⟨⟨by decide, by decide⟩,
   needsspacebeforeappend_last_token.1 _ _
     (Token.pinyin ⟨['h', 'e', 'n'], ⟨some 3, some 3⟩⟩) (by decide) (by decide),
   needsspacebeforeappend_last_token.2 _ ⟨['h', 'e', 'n'], ⟨some 3, some 3⟩⟩ (by decide)⟩

/-- C9 (amended): with differing counts and NON-EMPTY characters,
`tonedcharactersfromreading` returns exactly `[Text(characters)]`; with
equal counts it returns one token per character in order -
`TonedCharacter(char, token's tone)` when the reading token carries tone
info and the character is not a decimal digit, otherwise `Text(char)`.
The claim's unconditional mismatch fallback is refuted by
`tonedcharacters_empty_mismatch_raises` below: with empty characters the
`Text` constructor's non-emptiness check raises instead. -/
theorem tonedcharactersfromreading_spec (characters : PyStr) (reading_tokens : List Token) :
    (characters.length ≠ reading_tokens.length → characters ≠ [] →
       tonedcharactersfromreading characters reading_tokens = some [.text characters])
    ∧ (characters.length = reading_tokens.length →
       ∃ res, tonedcharactersfromreading characters reading_tokens = some res
         ∧ res.length = characters.length
         ∧ ∀ (i : Nat) (hi : i < characters.length) (hi2 : i < reading_tokens.length)
             (hr : i < res.length),
             res.get ⟨i, hr⟩ =
               if hasToneinfo (reading_tokens.get ⟨i, hi2⟩) && !(characters.get ⟨i, hi⟩).isDigit
               then .tonedCharacter [characters.get ⟨i, hi⟩]
                      (tokenToneinfo (reading_tokens.get ⟨i, hi2⟩))
               else .text [characters.get ⟨i, hi⟩]) := by
  constructor
  · intro hne hnonempty
    rw [tonedcharactersfromreading, if_pos hne, mkText, if_neg hnonempty]
    rfl
  · intro heq
    refine ⟨List.zipWith alignOne characters reading_tokens, ?_, ?_, ?_⟩
    · rw [tonedcharactersfromreading, if_neg (by omega)]
    · rw [List.length_zipWith]
      omega
    · intro i hi hi2 hr
      simp only [List.get_eq_getElem, List.getElem_zipWith]
      rfl

/-- C9 witness: the spec's scenario - characters 你儿 against readings
ni3 r5 yield toned characters 你/3 儿/5; a 1-vs-2 mismatch with non-empty
characters falls back to a single Text token. -/
theorem tonedcharactersfromreading_spec_witness :
    tonedcharactersfromreading ['你', '儿']
        [.pinyin ⟨['n', 'i'], ⟨some 3, some 3⟩⟩, .pinyin ⟨['r'], ⟨some 5, some 5⟩⟩]
      = some [.tonedCharacter ['你'] ⟨some 3, some 3⟩, .tonedCharacter ['儿'] ⟨some 5, some 5⟩]
    ∧ ((['你'] : PyStr).length ≠ ([Token.text ['a'], Token.text ['b']] : List Token).length
       ∧ tonedcharactersfromreading ['你'] [Token.text ['a'], Token.text ['b']]
           = some [.text ['你']]) :=
  ⟨by decide,
   ⟨by decide,
    (tonedcharactersfromreading_spec ['你'] [Token.text ['a'], Token.text ['b']]).1
      (by decide) (by decide)⟩⟩

/-- C9 counterexample: empty characters with one reading token is a
count mismatch, but the call raises (models as `none`) rather than
returning `[Text("")]`, which the `Text` constructor forbids. -/
theorem tonedcharacters_empty_mismatch_raises :
    ([] : PyStr).length ≠ ([Token.text ['x']] : List Token).length
    ∧ tonedcharactersfromreading [] [Token.text ['x']] = none
    ∧ (none : Option (List Token)) ≠ some [Token.text []] :=
  ⟨by decide, by decide, by decide⟩

/-- C6 witness: "xyz" is a single all-word-character segment that parses
neither directly nor as erhua, so tokenize returns `[Text "xyz"]`. -/
theorem tokenize_single_segment_text_witness :
    ((segs ['x', 'y', 'z']).map Prod.snd).flatten = ['x', 'y', 'z']
    ∧ (['x', 'y', 'z'] : PyStr) ≠ []
    ∧ tokenize demoValid ['x', 'y', 'z'] false = [.text ['x', 'y', 'z']] :=
  ⟨tokenize_single_segment_text.1 ['x', 'y', 'z'], by decide,
   tokenize_single_segment_text.2 demoValid ['x', 'y', 'z'] false (by decide)
     (Or.inl ⟨by decide,
       (fun py h => by
         have hx : Pinyin.parse demoValid ['x', 'y', 'z'] false
             = Except.error ParseError.notASyllable := by decide
         rw [hx] at h
         cases h),
       (fun py h => by
         have hx : Pinyin.parse demoValid (List.dropLast ['x', 'y', 'z']) false
             = Except.error ParseError.notASyllable := by decide
         rw [hx] at h
         cases h)⟩)⟩

/-- C6 counterexample: "ab cd" is pure non-syllable text (neither run
parses) yet tokenize returns three Text tokens, not one. -/
theorem tokenize_pure_text_not_single_token :
    (Pinyin.parse demoValid ['a', 'b'] false = .error .notASyllable
      ∧ Pinyin.parse demoValid ['c', 'd'] false = .error .notASyllable)
    ∧ tokenize demoValid ['a', 'b', ' ', 'c', 'd'] false
        = [.text ['a', 'b'], .text [' '], .text ['c', 'd']]
    ∧ tokenize demoValid ['a', 'b', ' ', 'c', 'd'] false
        ≠ [.text ['a', 'b', ' ', 'c', 'd']] :=
  ⟨⟨by decide, by decide⟩, by decide, by decide⟩

/-- The five tone digits handled by the tonifier's third pass. -/
def isToneDigit15 (c : Char) : Bool :=
  c = '1' || c = '2' || c = '3' || c = '4' || c = '5'

/-- Characters of a `replace1` image come from the replacement or
survive from the input. -/
theorem mem_replace1 {c a : Char} {r l : PyStr} (h : c ∈ replace1 a r l) :
    c ∈ r ∨ (c ∈ l ∧ c ≠ a) := by
  rw [replace1] at h
  obtain ⟨x, hx, hcx⟩ := List.mem_flatMap.mp h
  by_cases hxa : x = a
  · rw [if_pos hxa] at hcx
    exact Or.inl hcx
  · rw [if_neg hxa] at hcx
    simp only [List.mem_singleton] at hcx
    subst hcx
    exact Or.inr ⟨hx, hxa⟩

/-- Replacing an absent character is the identity. -/
theorem replace1_id {a : Char} {r l : PyStr} (h : ∀ c ∈ l, c ≠ a) :
    replace1 a r l = l := by
  induction l with
  | nil => rfl
  | cons c cs ih =>
    rw [replace1, List.flatMap_cons, if_neg (h c (by simp))]
    rw [replace1] at ih
    rw [ih (fun d hd => h d (by simp [hd]))]
    rfl

/-- The digit-to-mark pass eliminates every tone digit. -/
theorem toneDigitsToMarks_no_digit {l : PyStr} {c : Char}
    (h : c ∈ toneDigitsToMarks l) : isToneDigit15 c = false := by
  rw [toneDigitsToMarks] at h
  rcases mem_replace1 h with h5 | ⟨h, hne5⟩
  · cases h5
  rcases mem_replace1 h with h4 | ⟨h, hne4⟩
  · simp only [List.mem_singleton] at h4
    subst h4
    decide
  rcases mem_replace1 h with h3 | ⟨h, hne3⟩
  · simp only [List.mem_singleton] at h3
    subst h3
    decide
  rcases mem_replace1 h with h2 | ⟨h, hne2⟩
  · simp only [List.mem_singleton] at h2
    subst h2
    decide
  rcases mem_replace1 h with h1 | ⟨h, hne1⟩
  · simp only [List.mem_singleton] at h1
    subst h1
    decide
  simp only [isToneDigit15]
  simp_all

/-- All characters the composition table can produce. -/
def composeOutputs : PyStr := composeTable.map (fun e => e.2.2)

/-- The combining marks of the modelled repertoire. -/
def isCombiningMark (c : Char) : Bool :=
  c = markOfTone1 || c = markOfTone2 || c = markOfTone3 || c = markOfTone4 ||
    c = combiningDiaeresis

/-- A successful composition consumes a combining mark and produces a
table output that is itself not a combining mark. -/
theorem compose_some_facts {c d e : Char} (h : compose c d = some e) :
    e ∈ composeOutputs ∧ isCombiningMark d = true ∧ isCombiningMark e = false := by
  rw [compose] at h
  cases hf : composeTable.find? (fun x => x.1 = c ∧ x.2.1 = d) with
  | none =>
    rw [hf] at h
    cases h
  | some entry =>
    rw [hf] at h
    simp only [Option.map_some', Option.some.injEq] at h
    subst h
    have hmem := List.mem_of_find?_eq_some hf
    have hpred := List.find?_some hf
    have hfacts : ∀ x ∈ composeTable,
        isCombiningMark x.2.1 = true ∧ isCombiningMark x.2.2 = false := by decide
    have hd : entry.2.1 = d := by
      simp only [decide_eq_true_eq] at hpred
      exact hpred.2
    refine ⟨List.mem_map.mpr ⟨entry, hmem, rfl⟩, ?_, (hfacts entry hmem).2⟩
    rw [← hd]
    exact (hfacts entry hmem).1

/-- Nothing composes with a character that is not a combining mark. -/
theorem compose_none_of_not_mark {c d : Char} (hd : isCombiningMark d = false) :
    compose c d = none := by
  cases h : compose c d with
  | none => rfl
  | some e =>
    have := (compose_some_facts h).2.1
    rw [hd] at this
    cases this

/-- Characters of the recomposition either survive or come from the
composition table. -/
theorem mem_nfcAux {c : Char} : ∀ (l : PyStr) (b : Char), c ∈ nfcAux b l →
    c = b ∨ c ∈ l ∨ c ∈ composeOutputs := by
  intro l
  induction l with
  | nil =>
    intro b h
    simp only [nfcAux, List.mem_singleton] at h
    exact Or.inl h
  | cons d rest ih =>
    intro b h
    rw [nfcAux] at h
    cases hcd : compose b d with
    | some e =>
      rw [hcd] at h
      rcases ih e h with rfl | h2 | h3
      · exact Or.inr (Or.inr (compose_some_facts hcd).1)
      · exact Or.inr (Or.inl (by simp [h2]))
      · exact Or.inr (Or.inr h3)
    | none =>
      rw [hcd] at h
      rcases List.mem_cons.mp h with rfl | h2
      · exact Or.inl rfl
      · rcases ih d h2 with rfl | h3 | h4
        · exact Or.inr (Or.inl (by simp))
        · exact Or.inr (Or.inl (by simp [h3]))
        · exact Or.inr (Or.inr h4)

/-- Characters of an NFC image either survive or are table outputs. -/
theorem mem_nfc {c : Char} {l : PyStr} (h : c ∈ nfc l) :
    c ∈ l ∨ c ∈ composeOutputs := by
  cases l with
  | nil => cases h
  | cons b rest =>
    rw [nfc] at h
    rcases mem_nfcAux rest b h with rfl | h2 | h3
    · exact Or.inl (by simp)
    · exact Or.inl (by simp [h2])
    · exact Or.inr h3

/-- The recomposition starts with its pending character or with a
non-mark. -/
theorem nfcAux_head? : ∀ (l : PyStr) (b : Char), ∀ h ∈ (nfcAux b l).head?,
    h = b ∨ isCombiningMark h = false := by
  intro l
  induction l with
  | nil =>
    intro b h hh
    simp only [nfcAux, List.head?_cons, Option.mem_def, Option.some.injEq] at hh
    exact Or.inl hh.symm
  | cons d rest ih =>
    intro b h hh
    rw [nfcAux] at hh
    cases hcd : compose b d with
    | some e =>
      rw [hcd] at hh
      rcases ih e h hh with rfl | h2
      · exact Or.inr (compose_some_facts hcd).2.2
      · exact Or.inr h2
    | none =>
      rw [hcd] at hh
      simp only [List.head?_cons, Option.mem_def, Option.some.injEq] at hh
      exact Or.inl hh.symm

/-- The recomposition output has no adjacent composable pair. -/
theorem chain_nfcAux : ∀ (l : PyStr) (b : Char),
    List.Chain' (fun x y => compose x y = none) (nfcAux b l) := by
  intro l
  induction l with
  | nil =>
    intro b
    simp [nfcAux]
  | cons d rest ih =>
    intro b
    rw [nfcAux]
    cases hcd : compose b d with
    | some e => exact ih e
    | none =>
      rw [List.chain'_cons']
      refine ⟨?_, ih d⟩
      intro h hh
      rcases nfcAux_head? rest d h hh with rfl | h2
      · exact hcd
      · exact compose_none_of_not_mark h2

/-- NFC is the identity on strings without adjacent composable pairs. -/
theorem nfc_of_chain : ∀ {l : PyStr},
    List.Chain' (fun x y => compose x y = none) l → nfc l = l := by
  intro l
  induction l with
  | nil => intro _; rfl
  | cons b rest ih =>
    intro hch
    cases rest with
    | nil => rfl
    | cons d rest2 =>
      rw [List.chain'_cons] at hch
      rw [nfc, nfcAux, hch.1]
      have := ih hch.2
      rw [nfc] at this
      rw [this]

/-- NFC normalisation is idempotent. -/
theorem nfc_idempotent (l : PyStr) : nfc (nfc l) = nfc l := by
  cases l with
  | nil => rfl
  | cons b rest =>
    rw [nfc]
    exact nfc_of_chain (chain_nfcAux rest b)

/-- The n/r-final relocation pass is the identity without tone digits. -/
theorem subNrTone_id : ∀ {l : PyStr}, (∀ c ∈ l, isToneDigit14 c = false) →
    subNrTone l = l := by
  intro l
  induction l using subNrTone.induct with
  | case1 => intro _; rfl
  | case2 c => intro _; rfl
  | case3 c d rest hcond ih =>
    intro h
    rw [subNrTone, if_pos hcond]
    exact absurd (h d (by simp)) (by simp_all [Bool.and_eq_true])
  | case4 c d rest hcond ih =>
    intro h
    rw [subNrTone, if_neg hcond]
    rw [ih (fun x hx => h x (by simp [hx]))]

/-- The ng-final relocation pass is the identity without tone digits. -/
theorem subNgTone_id : ∀ {l : PyStr}, (∀ c ∈ l, isToneDigit14 c = false) →
    subNgTone l = l := by
  intro l
  induction l using subNgTone.induct with
  | case1 c d e rest hcond ih =>
    intro h
    exact absurd (h e (by simp)) (by simp_all [Bool.and_eq_true])
  | case2 c d e rest hcond ih =>
    intro h
    rw [subNgTone, if_neg hcond]
    rw [ih (fun x hx => h x (by simp [hx]))]
  | case3 l hshape =>
    intro _
    rcases l with _ | ⟨c, _ | ⟨d, _ | ⟨e, rest⟩⟩⟩
    · rfl
    · rfl
    · rfl
    · exact absurd rfl (hshape c d e rest)

/-- A vowel-pair relocation pass is the identity without tone digits. -/
theorem subVowelPair_id (first second : Char → Bool) :
    ∀ {l : PyStr}, (∀ c ∈ l, isToneDigit14 c = false) →
    subVowelPair first second l = l := by
  intro l
  induction l using subVowelPair.induct first second with
  | case1 a b t rest hcond ih =>
    intro h
    exact absurd (h t (by simp)) (by simp_all [Bool.and_eq_true])
  | case2 a b t rest hcond ih =>
    intro h
    rw [subVowelPair, if_neg hcond]
    rw [ih (fun x hx => h x (by simp [hx]))]
  | case3 l hshape =>
    intro _
    rcases l with _ | ⟨c, _ | ⟨d, _ | ⟨e, rest⟩⟩⟩
    · rfl
    · rfl
    · rfl
    · exact absurd rfl (hshape c d e rest)

/-- The digit-to-mark pass is the identity on digit-free strings. -/
theorem toneDigitsToMarks_id {l : PyStr}
    (h : ∀ c ∈ l, isToneDigit15 c = false) : toneDigitsToMarks l = l := by
  have hno : ∀ (a : Char), isToneDigit15 a = true → ∀ c ∈ l, c ≠ a := by
    intro a ha c hc hca
    subst hca
    rw [h c hc] at ha
    cases ha
  rw [toneDigitsToMarks]
  rw [replace1_id (hno '1' (by decide)), replace1_id (hno '2' (by decide)),
      replace1_id (hno '3' (by decide)), replace1_id (hno '4' (by decide)),
      replace1_id (hno '5' (by decide))]

/-- No character of a tonified line is a tone digit. -/
theorem tonify_mem_no_digit (line : PyStr) {c : Char}
    (h : c ∈ PinyinTonifier.tonify line) : isToneDigit15 c = false := by
  rw [PinyinTonifier.tonify] at h
  rcases mem_nfc h with h2 | h3
  · exact toneDigitsToMarks_no_digit h2
  · have hall : ∀ x ∈ composeOutputs, isToneDigit15 x = false := by decide
    exact hall c h3

/-- C7: `PinyinTonifier.tonify` is idempotent on every line - the first
application leaves no tone digits 1-5, so the rewrite passes of a second
application find nothing to move or substitute, and the final NFC
recomposition is idempotent.  In particular already-diacritic input
gains no further diacritic movement. -/
theorem tonify_idempotent (line : PyStr) :
    PinyinTonifier.tonify (PinyinTonifier.tonify line)
      = PinyinTonifier.tonify line := by
  have h15 : ∀ c ∈ PinyinTonifier.tonify line, isToneDigit15 c = false :=
    fun c hc => tonify_mem_no_digit line hc
  have h14 : ∀ c ∈ PinyinTonifier.tonify line, isToneDigit14 c = false := by
    intro c hc
    have := h15 c hc
    simp only [isToneDigit15, isToneDigit14, Bool.or_eq_false_iff] at this ⊢
    exact ⟨⟨⟨this.1.1.1.1, this.1.1.1.2⟩, this.1.1.2⟩, this.1.2⟩
  conv_lhs => rw [PinyinTonifier.tonify]
  rw [subNrTone_id h14]
  rw [subNgTone_id h14]
  rw [subVowelPair_id isAa isIiOo h14, subVowelPair_id isEe isIi h14,
      subVowelPair_id isOo isUu h14]
  rw [toneDigitsToMarks_id h15]
  conv_lhs => rw [show PinyinTonifier.tonify line = nfc (toneDigitsToMarks
    (subVowelPair isOo isUu (subVowelPair isEe isIi (subVowelPair isAa isIiOo
      (subNgTone (subNrTone line)))))) from rfl]
  rw [nfc_idempotent]
  rw [PinyinTonifier.tonify]

/-- C10: for every input line, the tonified result contains no digit
characters 1 through 5 anywhere - the third rewriting pass substitutes
every occurrence (tone digit or not) with a combining mark or deletes it,
and recomposition introduces no digits. -/
theorem tonify_no_tone_digits (line : PyStr) :
    (PinyinTonifier.tonify line).all (fun c => !isToneDigit15 c) = true := by
  rw [List.all_eq_true]
  intro c hc
  rw [tonify_mem_no_digit line hc]
  rfl

/-- Whether `Pinyin.parse` raises (used to phrase decidable hypotheses
about runs). -/
def parseFails (valid : List PyStr) (t : PyStr) (fn : Bool) : Bool :=
  match Pinyin.parse valid t fn with
  | .ok _ => false
  | .error _ => true

/-- The mark-scanning loop is the no-op when none of its marks occur. -/
theorem scanMarksAux_no_marks (L : List (Nat × Char)) (t : PyStr)
    (h : ∀ p ∈ L, p.2 ∉ t) (w : PyStr) :
    scanMarksAux L none t w = .ok (none, w) := by
  induction L with
  | nil => rfl
  | cons q rest ih =>
    rw [scanMarksAux, if_neg (h q (by simp))]
    exact ih (fun p hp => h p (by simp [hp]))

/-- With tonify off, a Pinyin token flattens to its `__unicode__` form
(numeric format with the neutral tone hidden). -/
theorem flattenToken_false_pinyin (p : Pinyin) :
    flattenToken false (Token.pinyin p) = p.numericformat true := rfl

/-- `__unicode__` of a syllable built from a numeric tone digit other
than 0 and 5 appends that digit character back: digits 1-4 and 6-9 pass
through `ToneInfo`'s `or`-defaulting unchanged, and only the written
tone 5 is hidden. -/
theorem numericformat_digit_char (w : PyStr) (c : Char) (hdig : c.isDigit = true)
    (h0 : c ≠ '0') (h5 : c ≠ '5') :
    (Pinyin.mk w (ToneInfo.make (some (c.toNat - 48)) none)).numericformat true = w ++ [c] := by
  have hb : 48 ≤ c.toNat ∧ c.toNat ≤ 57 := by
    simp only [Char.isDigit, Bool.and_eq_true, decide_eq_true_eq] at hdig
    exact hdig
  have hc0 : c.toNat ≠ 48 := fun h => h0 (Char.ext (UInt32.ext h))
  have hc5 : c.toNat ≠ 53 := fun h => h5 (Char.ext (UInt32.ext h))
  have hmk : ToneInfo.make (some (c.toNat - 48)) none
      = ⟨some (c.toNat - 48), some (c.toNat - 48)⟩ := by
    simp only [ToneInfo.make, pyOrTone]
    rw [if_neg (by simp; omega), if_pos (by simp)]
  rw [Pinyin.numericformat, hmk]
  have hcond : ¬(true = true ∧
      (⟨some (c.toNat - 48), some (c.toNat - 48)⟩ : ToneInfo).written = some 5) := by
    simp
    omega
  rw [if_neg hcond]
  simp only [pyStrOfTone, toDigits_single (c.toNat - 48) (by omega) (by omega)]
  have h48 : 48 + (c.toNat - 48) = c.toNat := by omega
  rw [h48, Char.ofNat_toNat]

/-- One recognised run flattens back to itself when it is untouched by
the ü-normalisation and the Unicode passes, any final digit is neither 0
nor 5, and the erhua recovery does not fire. -/
theorem flattenRun_eq (valid : List PyStr) (r : PyStr)
    (ha : substituteForUUmlaut r = r)
    (hb : nfd r = r)
    (hc : ∀ p ∈ marksWithTone, p.2 ∉ r)
    (hd : nfc r = r)
    (he : r ≠ [] → (r.getLastD ' ').isDigit = true →
          (r.getLastD ' ') ≠ '0' ∧ (r.getLastD ' ') ≠ '5')
    (hf : parseFails valid r false = true → (r.map pyLower).getLast? = some 'r' →
          parseFails valid r.dropLast false = true) :
    (tokenizeonewitherhua valid r false).flatMap (flattenToken false) = r := by
  cases hp : Pinyin.parse valid r false with
  | error e =>
    have hpf : parseFails valid r false = true := by rw [parseFails, hp]
    simp only [tokenizeonewitherhua, hp]
    split
    · rename_i hmr
      have hpre := hf hpf hmr
      cases hq : Pinyin.parse valid r.dropLast false with
      | ok py2 =>
        rw [parseFails, hq] at hpre
        cases hpre
      | error e2 =>
        simp only [hq]
        simp [flattenToken]
    · simp [flattenToken]
  | ok py =>
    simp only [tokenizeonewitherhua, hp, List.flatMap_cons, List.flatMap_nil,
      List.append_nil]
    have hne : r ≠ [] := by
      intro hnil
      subst hnil
      rw [Pinyin.parse] at hp
      simp [substituteForUUmlaut, replace1, replace2] at hp
    simp only [Pinyin.parse, ha] at hp
    split at hp
    · cases hp
    · cases hr : r.getLast? with
      | none =>
        simp only [hr] at hp
        cases hp
      | some c =>
        simp only [hr] at hp
        have hgl : r.getLastD ' ' = c := by
          rw [List.getLastD_eq_getLast?, hr]
          rfl
        have hgle : r.getLast hne = c := by
          have h2 := List.getLast?_eq_getLast r hne
          rw [hr] at h2
          exact (Option.some.inj h2).symm
        have hdc : r.dropLast ++ [c] = r := by
          rw [← hgle]
          exact List.dropLast_append_getLast hne
        by_cases hcd : c.isDigit = true
        · -- numeric branch
          have h05 : c ≠ '0' ∧ c ≠ '5' := by
            rw [← hgl] at hcd ⊢
            exact he hne hcd
          rw [if_pos hcd] at hp
          by_cases hmem : (r.dropLast.map pyLower) ∈ valid
          · rw [if_pos hmem] at hp
            injection hp with hpy
            subst hpy
            rw [flattenToken_false_pinyin,
                numericformat_digit_char _ c hcd h05.1 h05.2]
            exact hdc
          · rw [if_neg hmem] at hp
            cases hp
        · -- diacritic branch, with no marks present
          rw [if_neg hcd] at hp
          rw [if_neg (by decide : ¬(false = true))] at hp
          simp only [hb, scanMarksAux_no_marks marksWithTone r hc r, hd] at hp
          by_cases hmem : (r.map pyLower) ∈ valid
          · rw [if_pos hmem] at hp
            injection hp with hpy
            subst hpy
            rw [flattenToken_false_pinyin]
            rfl
          · rw [if_neg hmem] at hp
            cases hp

/-- C2 (amended): `flatten([tokenize(text)], tonify=false)` reproduces
`text` exactly when every recognised run is unchanged by ü-normalisation
(`u:`/`v`) and by NFD/NFC (no precomposed toned letters), carries no
combining tone mark, does not end in the digit 0 or 5, and is not
erhua-recoverable (the claim's own precondition).  The claim as stated -
excluding only erhua-recoverable runs - is refuted by
`flatten_tokenize_not_exact_on_neutral_digit` below: an explicit
neutral-tone digit is hidden on output. -/
theorem flatten_tokenize_roundtrip (valid : List PyStr) (text : PyStr)
    (hruns : ∀ s ∈ segs text, s.1 = true →
      (substituteForUUmlaut s.2 = s.2
       ∧ nfd s.2 = s.2
       ∧ (∀ p ∈ marksWithTone, p.2 ∉ s.2)
       ∧ nfc s.2 = s.2
       ∧ (s.2 ≠ [] → (s.2.getLastD ' ').isDigit = true →
            (s.2.getLastD ' ') ≠ '0' ∧ (s.2.getLastD ' ') ≠ '5')
       ∧ (parseFails valid s.2 false = true →
            (s.2.map pyLower).getLast? = some 'r' →
            parseFails valid s.2.dropLast false = true))) :
    flatten [tokenize valid text false] false = text := by
  rw [flatten, tokenize]
  simp only [List.flatMap_cons, List.flatMap_nil, List.append_nil, id_eq]
  rw [List.flatMap_assoc]
  have hcongr : ∀ s ∈ segs text,
      ((if s.1 = true then tokenizeonewitherhua valid s.2 false
        else [Token.text s.2]).flatMap (flattenToken false)) = s.2 := by
    intro s hs
    by_cases hrec : s.1 = true
    · rw [if_pos hrec]
      obtain ⟨ha, hb, hc, hd, he, hf⟩ := hruns s hs hrec
      exact flattenRun_eq valid s.2 ha hb hc hd he hf
    · rw [if_neg hrec]
      simp [flattenToken]
  rw [List.flatMap_congr hcongr]
  have : (segs text).flatMap (fun s => s.2) = ((segs text).map Prod.snd).flatten := by
    rw [List.flatMap_def]
  rw [this, segs_join]

/-- C2 witness: the two-syllable line "ni3 hao3" survives the round
trip. -/
theorem flatten_tokenize_roundtrip_witness :
    flatten [tokenize demoValid ['n', 'i', '3', ' ', 'h', 'a', 'o', '3'] false] false
      = ['n', 'i', '3', ' ', 'h', 'a', 'o', '3'] :=
  flatten_tokenize_roundtrip demoValid ['n', 'i', '3', ' ', 'h', 'a', 'o', '3'] (by decide)

/-- C2 counterexample: "hen5" contains no erhua-recoverable run (it
parses directly), yet it flattens to "hen" because `__unicode__` hides
the explicit neutral-tone digit. -/
theorem flatten_tokenize_not_exact_on_neutral_digit :
    Pinyin.parse demoValid ['h', 'e', 'n', '5'] false
      = .ok ⟨['h', 'e', 'n'], ⟨some 5, some 5⟩⟩
    ∧ flatten [tokenize demoValid ['h', 'e', 'n', '5'] false] false = ['h', 'e', 'n']
    ∧ (['h', 'e', 'n'] : PyStr) ≠ ['h', 'e', 'n', '5'] :=
  ⟨by decide, by decide, by decide⟩
